import Mathlib

/-!
Verification of the highlight-extraction core of AI-Youtube-Shorts-Generator
(`Components/LanguageTasks.py`).

The embedding models Python float values that flow through this program as
exact decimal numbers `Dec` (an integer mantissa over a power-of-ten
denominator), because every numeric value in the pipeline originates from a
decimal literal in a JSON reply or a transcript timestamp.  Semantic
statements about numbers are phrased over `ℚ` through `Dec.toRat`.

The generative service (`client.models.generate_content`) is the one
external collaborator; it is modelled as an oracle `Nat → Option String`
giving the reply text of each attempt (`none` = no/empty response object).
`json.loads` is modelled by an executable JSON parser over the JSON subset
relevant here (no `NaN`/`Infinity`, ASCII decimal numbers).
-/

/-- Exact decimal number: value `m / 10 ^ k`.  Stands for the Python floats
flowing through `LanguageTasks.py`, all of which originate from decimal
text. -/
structure Dec where
  m : Int
  k : Nat
deriving DecidableEq, Repr

/-- Rational value of a `Dec`. -/
def Dec.toRat (d : Dec) : ℚ := (d.m : ℚ) / (10 : ℚ) ^ d.k

/-- Comparison `a <= b` on decimals, by cross multiplication. -/
def Dec.le (a b : Dec) : Bool := a.m * 10 ^ b.k ≤ b.m * 10 ^ a.k

/-- Comparison `a < b` on decimals, by cross multiplication. -/
def Dec.lt (a b : Dec) : Bool := a.m * 10 ^ b.k < b.m * 10 ^ a.k

/-- Subtraction on decimals (models Python float subtraction `a - b`). -/
def Dec.sub (a b : Dec) : Dec :=
  let K := max a.k b.k
  ⟨a.m * 10 ^ (K - a.k) - b.m * 10 ^ (K - b.k), K⟩

/-- Addition on decimals (models Python float addition `a + b`). -/
def Dec.add (a b : Dec) : Dec :=
  let K := max a.k b.k
  ⟨a.m * 10 ^ (K - a.k) + b.m * 10 ^ (K - b.k), K⟩

/-- Whitespace for Python `str.strip` / `re` class `\s` (ASCII part). -/
def pyWs (c : Char) : Bool :=
  c = ' ' || c = '\t' || c = '\n' || c = '\r' || c = Char.ofNat 11 || c = Char.ofNat 12

/-- Drop trailing whitespace from a character list (the right half of
Python `str.strip`). -/
def dropTrailWs (l : List Char) : List Char := (l.reverse.dropWhile pyWs).reverse

/-- Python `str.strip()` on a character list. -/
def pyStripL (cs : List Char) : List Char := dropTrailWs (cs.dropWhile pyWs)

/-- Python `str.strip()`. -/
def pyStrip (s : String) : String := ⟨pyStripL s.data⟩

/-- Python `str.splitlines()` (restricted to the ASCII line separators). -/
def splitLinesAux : List Char → List Char → List String
  | [], acc => if acc.isEmpty then [] else [⟨acc.reverse⟩]
  | '\r' :: '\n' :: rest, acc => (⟨acc.reverse⟩ : String) :: splitLinesAux rest []
  | '\n' :: rest, acc => (⟨acc.reverse⟩ : String) :: splitLinesAux rest []
  | '\r' :: rest, acc => (⟨acc.reverse⟩ : String) :: splitLinesAux rest []
  | '\x0b' :: rest, acc => (⟨acc.reverse⟩ : String) :: splitLinesAux rest []
  | '\x0c' :: rest, acc => (⟨acc.reverse⟩ : String) :: splitLinesAux rest []
  | c :: rest, acc => splitLinesAux rest (c :: acc)

/-- Python `str.splitlines()`. -/
def splitLinesPy (s : String) : List String := splitLinesAux s.data []

/-- Numeric value of a run of decimal digits. -/
def digitsToNat (ds : List Char) : Nat := ds.foldl (fun a c => a * 10 + (c.toNat - 48)) 0

/-- JSON values as produced by `json.loads` in `LanguageTasks.py`. -/
inductive JVal where
  | null : JVal
  | bool (b : Bool) : JVal
  | num (d : Dec) : JVal
  | str (s : String) : JVal
  | arr (xs : List JVal) : JVal
  | obj (fields : List (String × JVal)) : JVal

/-- Lookup in a JSON object; the last binding of a duplicated key wins,
matching how `json.loads` builds a Python dict. -/
def jlookup (key : String) : List (String × JVal) → Option JVal
  | [] => none
  | (k, v) :: rest =>
    match jlookup key rest with
    | some r => some r
    | none => if k = key then some v else none

/-- Hexadecimal digit value, for JSON `\u` escapes. -/
def hexVal (c : Char) : Option Nat :=
  if '0' ≤ c ∧ c ≤ '9' then some (c.toNat - 48)
  else if 'a' ≤ c ∧ c ≤ 'f' then some (c.toNat - 87)
  else if 'A' ≤ c ∧ c ≤ 'F' then some (c.toNat - 55)
  else none

/-- Parse the body of a JSON string literal, after the opening quote.
Returns the decoded characters and the remainder after the closing quote. -/
def parseJStrBody : Nat → List Char → Option (List Char × List Char)
  | 0, _ => none
  | _ + 1, [] => none
  | fuel + 1, c :: rest =>
    if c = '"' then some ([], rest)
    else if c = '\\' then
      match rest with
      | [] => none
      | e :: rest2 =>
        if e = 'u' then
          match rest2 with
          | h1 :: h2 :: h3 :: h4 :: rest3 =>
            match hexVal h1, hexVal h2, hexVal h3, hexVal h4 with
            | some v1, some v2, some v3, some v4 =>
              match parseJStrBody fuel rest3 with
              | some (s, r) => some (Char.ofNat (((v1 * 16 + v2) * 16 + v3) * 16 + v4) :: s, r)
              | none => none
            | _, _, _, _ => none
          | _ => none
        else
          let esc : Option Char :=
            if e = '"' then some '"'
            else if e = '\\' then some '\\'
            else if e = '/' then some '/'
            else if e = 'n' then some '\n'
            else if e = 't' then some '\t'
            else if e = 'r' then some '\r'
            else if e = 'b' then some (Char.ofNat 8)
            else if e = 'f' then some (Char.ofNat 12)
            else none
          match esc with
          | some ch =>
            match parseJStrBody fuel rest2 with
            | some (s, r) => some (ch :: s, r)
            | none => none
          | none => none
    else
      match parseJStrBody fuel rest with
      | some (s, r) => some (c :: s, r)
      | none => none

/-- Parse a JSON number starting at the given characters (strict JSON
grammar: optional minus, no leading zeros, optional fraction and
exponent).  Returns its exact decimal value and the remainder. -/
def parseJNum (cs : List Char) : Option (Dec × List Char) :=
  let neg : Bool := match cs with | '-' :: _ => true | _ => false
  let cs1 := match cs with | '-' :: r => r | _ => cs
  let ip := cs1.takeWhile Char.isDigit
  let cs2 := cs1.dropWhile Char.isDigit
  if ip.isEmpty then none
  else if ip.length > 1 && ip.headD '0' = '0' then none
  else
    let hasDot : Bool := match cs2 with | '.' :: _ => true | _ => false
    let fp := match cs2 with | '.' :: r => r.takeWhile Char.isDigit | _ => []
    let cs3 := match cs2 with | '.' :: r => r.dropWhile Char.isDigit | _ => cs2
    if hasDot && fp.isEmpty then none
    else
      let m0 : Nat := digitsToNat ip * 10 ^ fp.length + digitsToNat fp
      let k0 : Nat := fp.length
      let hasExp : Bool := match cs3 with | e :: _ => e = 'e' || e = 'E' | [] => false
      if hasExp then
        let r := cs3.tail
        let esgn : Bool := match r with | '-' :: _ => true | _ => false
        let r1 := match r with | '-' :: rr => rr | '+' :: rr => rr | _ => r
        let eds := r1.takeWhile Char.isDigit
        let r2 := r1.dropWhile Char.isDigit
        if eds.isEmpty then none
        else
          let ev := digitsToNat eds
          let d : Dec :=
            if esgn then ⟨(if neg then -(m0 : Int) else (m0 : Int)), k0 + ev⟩
            else ⟨(if neg then -((m0 * 10 ^ ev : Nat) : Int) else ((m0 * 10 ^ ev : Nat) : Int)), k0⟩
          some (d, r2)
      else
        some (⟨(if neg then -(m0 : Int) else (m0 : Int)), k0⟩, cs3)

/-- Whitespace accepted between JSON tokens. -/
def jsonWs (c : Char) : Bool := c = ' ' || c = '\t' || c = '\n' || c = '\r'

/-- The opening curly-brace character (code 123). -/
def lbrace : Char := Char.ofNat 123

/-- The closing curly-brace character (code 125). -/
def rbrace : Char := Char.ofNat 125

mutual

/-- Parse one JSON value (fuel-bounded recursive-descent parser modelling
`json.loads`). -/
def parseJVal : Nat → List Char → Option (JVal × List Char)
  | 0, _ => none
  | fuel + 1, cs =>
    match cs.dropWhile jsonWs with
    | [] => none
    | c :: rest =>
      if c = '"' then
        match parseJStrBody (rest.length + 1) rest with
        | some (s, r) => some (.str ⟨s⟩, r)
        | none => none
      else if c = '[' then
        match rest.dropWhile jsonWs with
        | ']' :: r2 => some (.arr [], r2)
        | _ => match parseJArrItems fuel rest with
          | some (xs, r) => some (.arr xs, r)
          | none => none
      else if c = lbrace then
        match rest.dropWhile jsonWs with
        | c2 :: r2 => if c2 = rbrace then some (.obj [], r2) else
          match parseJObjItems fuel rest with
          | some (fs, r) => some (.obj fs, r)
          | none => none
        | _ => match parseJObjItems fuel rest with
          | some (fs, r) => some (.obj fs, r)
          | none => none
      else if c = 't' then
        match rest with
        | 'r' :: 'u' :: 'e' :: r => some (.bool true, r)
        | _ => none
      else if c = 'f' then
        match rest with
        | 'a' :: 'l' :: 's' :: 'e' :: r => some (.bool false, r)
        | _ => none
      else if c = 'n' then
        match rest with
        | 'u' :: 'l' :: 'l' :: r => some (.null, r)
        | _ => none
      else
        match parseJNum (c :: rest) with
        | some (d, r) => some (.num d, r)
        | none => none

/-- Parse the items of a non-empty JSON array, after the opening bracket. -/
def parseJArrItems : Nat → List Char → Option (List JVal × List Char)
  | 0, _ => none
  | fuel + 1, cs =>
    match parseJVal fuel cs with
    | none => none
    | some (v, r) =>
      match r.dropWhile jsonWs with
      | ',' :: r2 =>
        match parseJArrItems fuel r2 with
        | some (xs, r3) => some (v :: xs, r3)
        | none => none
      | ']' :: r2 => some ([v], r2)
      | _ => none

/-- Parse the members of a non-empty JSON object, after the opening brace. -/
def parseJObjItems : Nat → List Char → Option (List (String × JVal) × List Char)
  | 0, _ => none
  | fuel + 1, cs =>
    match cs.dropWhile jsonWs with
    | '"' :: rest =>
      match parseJStrBody (rest.length + 1) rest with
      | none => none
      | some (key, r) =>
        match r.dropWhile jsonWs with
        | ':' :: r2 =>
          match parseJVal fuel r2 with
          | none => none
          | some (v, r3) =>
            match r3.dropWhile jsonWs with
            | c4 :: r4 =>
              if c4 = ',' then
                match parseJObjItems fuel r4 with
                | some (fs, r5) => some ((⟨key⟩, v) :: fs, r5)
                | none => none
              else if c4 = rbrace then some ([(⟨key⟩, v)], r4)
              else none
            | _ => none
        | _ => none
    | _ => none

end

/-- Model of `json.loads`: parse one JSON document, requiring only
whitespace after it; `none` models a raised `json.JSONDecodeError`. -/
def jsonLoads (s : String) : Option JVal :=
  match parseJVal (2 * s.length + 8) s.data with
  | some (v, r) => if (r.dropWhile jsonWs).isEmpty then some v else none
  | none => none

/-- Model of Python `float(str)` restricted to finite ASCII decimal input
(optional sign, digits with optional fraction, optional exponent), the
forms produced by the pipeline; `none` models a raised `ValueError`. -/
def pyParseFloat (s : String) : Option Dec :=
  let cs := pyStripL s.data
  let sgn : Bool := match cs with | '-' :: _ => true | _ => false
  let cs1 := match cs with | '-' :: r => r | '+' :: r => r | _ => cs
  let ip := cs1.takeWhile Char.isDigit
  let cs2 := cs1.dropWhile Char.isDigit
  let hasDot : Bool := match cs2 with | '.' :: _ => true | _ => false
  let fp := match cs2 with | '.' :: r => r.takeWhile Char.isDigit | _ => []
  let cs3 := match cs2 with | '.' :: r => r.dropWhile Char.isDigit | _ => cs2
  if ip.isEmpty && fp.isEmpty then none
  else
    let m0 : Nat := digitsToNat ip * 10 ^ fp.length + digitsToNat fp
    let k0 : Nat := fp.length
    let hasExp : Bool := match cs3 with | e :: _ => e = 'e' || e = 'E' | [] => false
    if hasExp then
      let r := cs3.tail
      let esgn : Bool := match r with | '-' :: _ => true | _ => false
      let r1 := match r with | '-' :: rr => rr | '+' :: rr => rr | _ => r
      let eds := r1.takeWhile Char.isDigit
      let r2 := r1.dropWhile Char.isDigit
      if eds.isEmpty || !r2.isEmpty then none
      else
        let ev := digitsToNat eds
        if esgn then some ⟨(if sgn then -(m0 : Int) else (m0 : Int)), k0 + ev⟩
        else some ⟨(if sgn then -((m0 * 10 ^ ev : Nat) : Int) else ((m0 * 10 ^ ev : Nat) : Int)), k0⟩
    else
      if hasDot then
        if cs3.isEmpty then some ⟨(if sgn then -(m0 : Int) else (m0 : Int)), k0⟩ else none
      else
        if cs2.isEmpty then some ⟨(if sgn then -(m0 : Int) else (m0 : Int)), k0⟩ else none

/-- Outcome of Python `float(value)` on a JSON value: success, `ValueError`
(unconvertible text) or `TypeError` (non-numeric type). -/
inductive ConvRes where
  | ok (d : Dec) : ConvRes
  | valErr : ConvRes
  | typeErr : ConvRes
deriving DecidableEq

/-- Python `float(value)` on a JSON value (`float(True) = 1.0`). -/
def pyFloatConv : JVal → ConvRes
  | .num d => .ok d
  | .bool b => .ok ⟨if b then 1 else 0, 0⟩
  | .str s =>
    match pyParseFloat s with
    | some d => .ok d
    | none => .valErr
  | _ => .typeErr

/-- Python `float(value)` where any raised error is observed as `none`. -/
def pyFloat (v : JVal) : Option Dec :=
  match pyFloatConv v with
  | .ok d => some d
  | _ => none

/-- The `min_duration = 30.0 - 1.0` constant of `validate_highlight`. -/
def min_duration : Dec := Dec.sub ⟨300, 1⟩ ⟨10, 1⟩

/-- The `max_duration = 60.0 + 1.0` constant of `validate_highlight`. -/
def max_duration : Dec := Dec.add ⟨600, 1⟩ ⟨10, 1⟩

/-- Embedding of `validate_highlight` (LanguageTasks.py, lines 41-68):
missing keys, conversion errors, out-of-range duration or bad ordering all
yield `false`; exceptions from `float` are caught.  A non-dict argument
also yields `false` (missing key or a caught `TypeError`). -/
def validate_highlight (h : JVal) : Bool :=
  match h with
  | .obj fields =>
    match jlookup "start" fields, jlookup "end" fields with
    | some sv, some ev =>
      match pyFloat sv, pyFloat ev with
      | some s, some e =>
        let dur := Dec.sub e s
        if !(Dec.le min_duration dur && Dec.le dur max_duration) then false
        else if Dec.le e s then false
        else true
      | _, _ => false
    | _, _ => false
  | _ => false

/-- Sort key used by `sorted(highlights, key=lambda x: float(x["start"]))`.
At every call site each element has already passed `validate_highlight`,
so the conversion cannot fail; the default is unreachable there. -/
def startKey (h : JVal) : Dec :=
  match h with
  | .obj fields =>
    match jlookup "start" fields with
    | some v => (pyFloat v).getD ⟨0, 0⟩
    | none => ⟨0, 0⟩
  | _ => ⟨0, 0⟩

/-- Value of `float(x["end"])` as used in the overlap checks (same
reachability remark as for `startKey`). -/
def endKey (h : JVal) : Dec :=
  match h with
  | .obj fields =>
    match jlookup "end" fields with
    | some v => (pyFloat v).getD ⟨0, 0⟩
    | none => ⟨0, 0⟩
  | _ => ⟨0, 0⟩

/-- Model of Python `sorted(·, key=lambda x: float(x["start"]))`: a stable
sort by the start key (insertion sort with non-strict comparison is
stable, as is Python timsort, so the two agree). -/
def sortByStart (hs : List JVal) : List JVal :=
  List.insertionSort (fun a b => Dec.le (startKey a) (startKey b) = true) hs

/-- Tail of the adjacent-overlap scan: `prev` is the previous element. -/
def noAdjOverlapAux (prev : JVal) : List JVal → Bool
  | [] => true
  | b :: rest =>
    if Dec.lt (startKey b) (endKey prev) then false else noAdjOverlapAux b rest

/-- The adjacent-overlap scan shared by `validate_highlights` and
`extract_highlights`: `false` iff some adjacent pair of the (sorted) list
has `float(end_i) > float(start_(i+1))`. -/
def noAdjOverlap : List JVal → Bool
  | [] => true
  | a :: rest => noAdjOverlapAux a rest

/-- Embedding of `validate_highlights` (LanguageTasks.py, lines 71-92). -/
def validate_highlights (hs : List JVal) : Bool :=
  if hs.isEmpty then false
  else if hs.all validate_highlight then noAdjOverlap (sortByStart hs)
  else false

/-- The backtick character (code 96). -/
def btick : Char := Char.ofNat 96

/-- Does the text match `\s*` followed by a code fence (three backticks)?
Used by the minimal-group scan of the regex on the reply text. -/
def wsThenFence : List Char → Bool
  | [] => false
  | c :: r =>
    if List.isPrefixOf "```".data (c :: r) then true
    else if pyWs c then wsThenFence r else false

/-- Capture group 1 of the fence regex at a fixed start: the shortest
prefix whose remainder matches `\s*` then a closing fence (the group is
non-greedy); `none` when no closing fence follows (the match fails). -/
def takeGroup1 : List Char → Option (List Char)
  | [] => none
  | c :: r =>
    if wsThenFence (c :: r) then some []
    else
      match takeGroup1 r with
      | some g => some (c :: g)
      | none => none

/-- Leftmost-match search for the fenced block, one start position at a
time, as `re.search` does. -/
def fenceSearch : List Char → Option (List Char)
  | [] => none
  | c :: r =>
    if List.isPrefixOf "```json".data (c :: r) then
      match takeGroup1 (((c :: r).drop 7).dropWhile pyWs) with
      | some g => some g
      | none => fenceSearch r
    else fenceSearch r

/-- Embedding of the fence-stripping step shared by `extract_highlights`
(lines 163-170) and `generate_description_and_hashtags` (lines 306-312):
`re.search` with the pattern for a ```json fenced block; on a match the
stripped group 1 is used, otherwise the whole stripped reply. -/
def stripFence (s : String) : String :=
  match fenceSearch s.data with
  | some g => ⟨pyStripL g⟩
  | none => pyStrip s

/-- Outcome of one attempt of the `extract_highlights` loop on a given
service reply: `some` sorted validated segments, or `none` when the
attempt fails (no/empty reply, undecodable or non-list JSON, zero
individually-valid segments, or an overlap). -/
def attemptSegments (reply : Option String) : Option (List JVal) :=
  match reply with
  | none => none
  | some t =>
    if t = "" then none
    else
      match jsonLoads (stripFence t) with
      | some (.arr raw) =>
        let valid := raw.filter validate_highlight
        if valid.isEmpty then none
        else
          let sorted := sortByStart valid
          if noAdjOverlap sorted then some sorted else none
      | _ => none

/-- The retry loop of `extract_highlights`: `attempt` is the index of the
next attempt and the second argument the number of attempts left. -/
def extractGo (replies : Nat → Option String) : Nat → Nat → List JVal
  | _, 0 => []
  | attempt, remaining + 1 =>
    match attemptSegments (replies attempt) with
    | some l => l
    | none => extractGo replies (attempt + 1) remaining

/-- Embedding of `extract_highlights` (LanguageTasks.py, lines 95-214).
The generative service is the oracle `replies`; the transcription only
feeds the prompt and cannot influence the result. -/
def extract_highlights (replies : Nat → Option String) (transcription : String)
    (max_attempts : Nat) : List JVal :=
  extractGo replies 0 max_attempts

/-- Does the text match the optional trailing timestamp of the line regex,
followed by end of line: `\s*\[\d+\.\d+\s*\]$`? -/
def tailTs (u : List Char) : Bool :=
  match u.dropWhile pyWs with
  | '[' :: r =>
    let d1 := r.takeWhile Char.isDigit
    let r1 := r.dropWhile Char.isDigit
    if d1.isEmpty then false
    else
      match r1 with
      | '.' :: r2 =>
        let d2 := r2.takeWhile Char.isDigit
        let r3 := r2.dropWhile Char.isDigit
        if d2.isEmpty then false else r3.dropWhile pyWs = [']']
      | _ => false
  | _ => false

/-- Capture group 2 of the line regex `(.*?)`: non-greedy, so the group is
the shortest prefix after which the optional trailing timestamp (or the
bare end of line) matches. -/
def group2 : List Char → List Char
  | [] => []
  | c :: r => if tailTs (c :: r) then [] else c :: group2 r

/-- Model of `re.sub(r"^[Ss]peaker\s*\d*:\s*", "", text)`: strip one
leading speaker tag when present. -/
def stripSpeaker (cs : List Char) : List Char :=
  match cs with
  | [] => []
  | c :: r =>
    if (c = 'S' || c = 's') && List.isPrefixOf "peaker".data r then
      let r1 := (r.drop 6).dropWhile pyWs
      let r2 := r1.dropWhile Char.isDigit
      match r2 with
      | ':' :: r3 => r3.dropWhile pyWs
      | _ => cs
    else cs

/-- Match one transcript line against the line regex of
`extract_text_for_segment` (line 227),
`^\s*\[\s*(\d+\.\d+)\s*\]\s*(.*?)(?:\s*\[\d+\.\d+\s*\])?$`,
then apply the speaker-tag stripping and trimming done in the loop body.
Returns the timestamp and the cleaned text, or `none` when the line does
not match and is silently skipped. -/
def lineMatch (line : String) : Option (Dec × String) :=
  match line.data.dropWhile pyWs with
  | '[' :: r0 =>
    let r1 := r0.dropWhile pyWs
    let d1 := r1.takeWhile Char.isDigit
    let r2 := r1.dropWhile Char.isDigit
    if d1.isEmpty then none
    else
      match r2 with
      | '.' :: r3 =>
        let d2 := r3.takeWhile Char.isDigit
        let r4 := r3.dropWhile Char.isDigit
        if d2.isEmpty then none
        else
          match r4.dropWhile pyWs with
          | ']' :: r5 =>
            let g2 := group2 (r5.dropWhile pyWs)
            let text := pyStripL (stripSpeaker (pyStripL g2))
            some (⟨(digitsToNat d1 * 10 ^ d2.length + digitsToNat d2 : Nat), d2.length⟩, ⟨text⟩)
          | _ => none
      | _ => none
  | _ => none

/-- The line loop of `extract_text_for_segment`: collect the cleaned text
of every matching line whose timestamp `ts` satisfies
`start_time <= ts < end_time`, skipping empty text. -/
def collectSeg (start_time end_time : Dec) : List String → List String
  | [] => []
  | ln :: rest =>
    match lineMatch ln with
    | some (ts, txt) =>
      if Dec.lt ts end_time && Dec.le start_time ts then
        if txt = "" then collectSeg start_time end_time rest
        else txt :: collectSeg start_time end_time rest
      else collectSeg start_time end_time rest
    | none => collectSeg start_time end_time rest

/-- Embedding of `extract_text_for_segment` (LanguageTasks.py, lines
219-249). -/
def extract_text_for_segment (transcription : String) (start_time end_time : Dec) : String :=
  String.intercalate "\n" (collectSeg start_time end_time (splitLinesPy (pyStrip transcription)))

/-- The Transcript Line Model of the spec: the sequence of (timestamp,
text) records recovered from a transcript, in input order, keeping only
lines that match the line regex and have non-empty cleaned text. -/
def parseLines (transcription : String) : List (Dec × String) :=
  (splitLinesPy (pyStrip transcription)).filterMap fun ln =>
    match lineMatch ln with
    | some (ts, txt) => if txt = "" then none else some (ts, txt)
    | none => none

/-- Outcome of one attempt of the `generate_description_and_hashtags` loop
on a given service reply: the trimmed caption when the reply parses to a
JSON object whose `caption_with_hashtags` member is a string, else
`none`. -/
def replyCaption (reply : Option String) : Option String :=
  match reply with
  | none => none
  | some t =>
    if t = "" then none
    else
      match jsonLoads (stripFence t) with
      | some (.obj fields) =>
        match jlookup "caption_with_hashtags" fields with
        | some (.str s) => some (pyStrip s)
        | _ => none
      | _ => none

/-- The retry loop of `generate_description_and_hashtags`; the second
component counts the service calls made (one per loop iteration). -/
def genDescGo (replies : Nat → Option String) : Nat → Nat → Option String × Nat
  | _, 0 => (none, 0)
  | attempt, remaining + 1 =>
    match replyCaption (replies attempt) with
    | some cap => (some cap, 1)
    | none =>
      let p := genDescGo replies (attempt + 1) remaining
      (p.1, p.2 + 1)

/-- Embedding of `generate_description_and_hashtags` (LanguageTasks.py,
lines 252-336), instrumented with the number of service calls made. -/
def generate_description_and_hashtags (replies : Nat → Option String) (segment_text : String)
    (max_attempts : Nat) : Option String × Nat :=
  if pyStrip segment_text = "" then (none, 0)
  else genDescGo replies 0 max_attempts

/-- Final unit of work product of `GetHighlights`. -/
structure EnrichedHighlightData where
  start : Dec
  endTime : Dec
  caption_with_hashtags : String
  segment_text : String
deriving DecidableEq, Repr

/-- The per-segment loop of `GetHighlights` (lines 362-394).  `capReplies
i` is the caption-service oracle for the segment at position `i`.  `none`
models an exception escaping to the outer handler (a `KeyError` or
`TypeError` while reading the timestamps, impossible for validated
segments); a `ValueError` from `float` is caught in the loop and skips the
segment.  The caption test `if caption_string:` (line 383) is Python
truthiness: both `None` and the empty trimmed caption skip the
segment. -/
def processSegs (capReplies : Nat → Nat → Option String) (transcription : String) :
    List JVal → Nat → Option (List EnrichedHighlightData)
  | [], _ => some []
  | seg :: rest, idx =>
    match seg with
    | .obj fields =>
      match jlookup "start" fields, jlookup "end" fields with
      | some sv, some ev =>
        match pyFloatConv sv with
        | .typeErr => none
        | .valErr => processSegs capReplies transcription rest (idx + 1)
        | .ok s =>
          match pyFloatConv ev with
          | .typeErr => none
          | .valErr => processSegs capReplies transcription rest (idx + 1)
          | .ok e =>
            let txt := extract_text_for_segment transcription s e
            if pyStrip txt = "" then processSegs capReplies transcription rest (idx + 1)
            else
              match (generate_description_and_hashtags (capReplies idx) txt 3).1 with
              | some cap =>
                if cap = "" then processSegs capReplies transcription rest (idx + 1)
                else
                  match processSegs capReplies transcription rest (idx + 1) with
                  | some l => some (⟨s, e, cap, txt⟩ :: l)
                  | none => none
              | none => processSegs capReplies transcription rest (idx + 1)
      | _, _ => none
    | _ => none

/-- Independent processing of one segment (the per-segment body of the
loop, used to state that segments are processed in isolation).  As in the
loop, a `None` or empty trimmed caption fails the Python truthiness test
of line 383 and produces no record. -/
def processOne (capReplies : Nat → Option String) (transcription : String) (seg : JVal) :
    Option EnrichedHighlightData :=
  match seg with
  | .obj fields =>
    match jlookup "start" fields, jlookup "end" fields with
    | some sv, some ev =>
      match pyFloat sv, pyFloat ev with
      | some s, some e =>
        let txt := extract_text_for_segment transcription s e
        if pyStrip txt = "" then none
        else
          match (generate_description_and_hashtags capReplies txt 3).1 with
          | some cap => if cap = "" then none else some ⟨s, e, cap, txt⟩
          | none => none
      | _, _ => none
    | _, _ => none
  | _ => none

/-- Pair each list element with its position, starting at `n`. -/
def enumFromL {α : Type} (n : Nat) : List α → List (Nat × α)
  | [] => []
  | x :: xs => (n, x) :: enumFromL (n + 1) xs

/-- Embedding of `GetHighlights` (LanguageTasks.py, lines 341-407).
`eReplies` is the extraction-service oracle, `capReplies` the
caption-service oracle indexed by segment position. -/
def GetHighlights (eReplies : Nat → Option String) (capReplies : Nat → Nat → Option String)
    (transcription : String) : List EnrichedHighlightData :=
  if pyStrip transcription = "" then []
  else if (extract_highlights eReplies (pyStrip transcription) 3).isEmpty then []
  else
    match processSegs capReplies transcription (extract_highlights eReplies (pyStrip transcription) 3) 0 with
    | some l => l
    | none => []

/-- Failure of one extraction attempt, as the claims enumerate it: no or
empty reply, undecodable JSON, non-list JSON, zero individually-valid
segments, or an overlap among the valid ones. -/
def attemptFails (reply : Option String) : Bool :=
  match reply with
  | none => true
  | some t =>
    if t = "" then true
    else
      match jsonLoads (stripFence t) with
      | some (.arr raw) =>
        let valid := raw.filter validate_highlight
        valid.isEmpty || !noAdjOverlap (sortByStart valid)
      | _ => true

theorem Dec.le_iff (a b : Dec) : Dec.le a b = true ↔ a.toRat ≤ b.toRat := by
  unfold Dec.le Dec.toRat
  rw [div_le_div_iff (by positivity) (by positivity)]
  simp only [decide_eq_true_eq]
  constructor
  · intro h; exact_mod_cast h
  · intro h; exact_mod_cast h

theorem Dec.lt_iff (a b : Dec) : Dec.lt a b = true ↔ a.toRat < b.toRat := by
  unfold Dec.lt Dec.toRat
  rw [div_lt_div_iff (by positivity) (by positivity)]
  simp only [decide_eq_true_eq]
  constructor
  · intro h; exact_mod_cast h
  · intro h; exact_mod_cast h

theorem Dec.sub_toRat (a b : Dec) : (Dec.sub a b).toRat = a.toRat - b.toRat := by
  unfold Dec.sub Dec.toRat
  have h1 : (10 : ℚ) ^ (max a.k b.k - a.k) * 10 ^ a.k = 10 ^ max a.k b.k := by
    rw [← pow_add]; congr 1; omega
  have h2 : (10 : ℚ) ^ (max a.k b.k - b.k) * 10 ^ b.k = 10 ^ max a.k b.k := by
    rw [← pow_add]; congr 1; omega
  have e1 : (a.m : ℚ) / 10 ^ a.k = (a.m * 10 ^ (max a.k b.k - a.k)) / 10 ^ max a.k b.k := by
    rw [div_eq_div_iff (by positivity) (by positivity), mul_assoc, h1]
  have e2 : (b.m : ℚ) / 10 ^ b.k = (b.m * 10 ^ (max a.k b.k - b.k)) / 10 ^ max a.k b.k := by
    rw [div_eq_div_iff (by positivity) (by positivity), mul_assoc, h2]
  rw [e1, e2, div_sub_div_same]
  push_cast
  ring_nf

theorem min_duration_toRat : min_duration.toRat = 29 := by
  rw [show min_duration = ⟨290, 1⟩ from rfl]
  norm_num [Dec.toRat]

theorem max_duration_toRat : max_duration.toRat = 61 := by
  rw [show max_duration = ⟨610, 1⟩ from rfl]
  norm_num [Dec.toRat]

/-- Boolean shape of the two duration/ordering checks of
`validate_highlight`, over rational semantics. -/
theorem validate_core (s e : Dec) :
    (if !(Dec.le min_duration (Dec.sub e s) && Dec.le (Dec.sub e s) max_duration) then false
     else if Dec.le e s then false else true) = true ↔
      s.toRat < e.toRat ∧ 29 ≤ e.toRat - s.toRat ∧ e.toRat - s.toRat ≤ 61 := by
  have hif : ∀ a b c : Bool,
      (if !(a && b) then false else if c then false else true) = (a && b && !c) := by decide
  rw [hif]
  simp only [Bool.and_eq_true, Bool.not_eq_true']
  rw [Dec.le_iff min_duration (Dec.sub e s), Dec.le_iff (Dec.sub e s) max_duration,
    min_duration_toRat, max_duration_toRat, Dec.sub_toRat, Bool.eq_false_iff, Ne,
    Dec.le_iff e s, not_le]
  tauto

/-- Characterization of `validate_highlight`, shared by several claims. -/
theorem validate_highlight_spec (h : JVal) :
    validate_highlight h = true ↔
      ∃ fields sv ev s e, h = JVal.obj fields ∧
        jlookup "start" fields = some sv ∧ jlookup "end" fields = some ev ∧
        pyFloat sv = some s ∧ pyFloat ev = some e ∧
        s.toRat < e.toRat ∧ 29 ≤ e.toRat - s.toRat ∧ e.toRat - s.toRat ≤ 61 := by
  cases h with
  | obj fields =>
    cases hs : jlookup "start" fields with
    | none => simp [validate_highlight, hs]
    | some sv =>
      cases he : jlookup "end" fields with
      | none => simp [validate_highlight, hs, he]
      | some ev =>
        cases hfs : pyFloat sv with
        | none => simp [validate_highlight, hs, he, hfs]
        | some s =>
          cases hfe : pyFloat ev with
          | none => simp [validate_highlight, hs, he, hfs, hfe]
          | some e =>
            simp only [validate_highlight, hs, he, hfs, hfe]
            rw [validate_core]
            constructor
            · rintro ⟨hlt, h29, h61⟩
              exact ⟨fields, sv, ev, s, e, rfl, hs, he, hfs, hfe, hlt, h29, h61⟩
            · rintro ⟨f', sv', ev', s', e', hf, hs', he', hfs', hfe', hlt, h29, h61⟩
              injection hf with hff
              subst hff
              rw [hs] at hs'
              rw [he] at he'
              injection hs' with hsv
              injection he' with hev
              subst hsv
              subst hev
              rw [hfs] at hfs'
              rw [hfe] at hfe'
              injection hfs' with hss
              injection hfe' with hee
              subst hss
              subst hee
              exact ⟨hlt, h29, h61⟩
  | null => simp [validate_highlight]
  | bool b => simp [validate_highlight]
  | num d => simp [validate_highlight]
  | str s => simp [validate_highlight]
  | arr xs => simp [validate_highlight]

/-- C1: for every segment mapping whose start/end resolve to numbers,
`validate_highlight` returns true iff `start < end` and the duration
`end - start` lies in the inclusive bounds `[29, 61]`; a missing key, a
non-numeric value or any conversion failure yields `false` rather than an
exception (the embedding is a total Bool function, and the iff forces
`false` in each of those cases). -/
theorem C1_validate_highlight_iff (h : JVal) :
    validate_highlight h = true ↔
      ∃ fields sv ev s e, h = JVal.obj fields ∧
        jlookup "start" fields = some sv ∧ jlookup "end" fields = some ev ∧
        pyFloat sv = some s ∧ pyFloat ev = some e ∧
        s.toRat < e.toRat ∧ 29 ≤ e.toRat - s.toRat ∧ e.toRat - s.toRat ≤ 61 :=
  validate_highlight_spec h

/-- The tail scan succeeds exactly when no adjacent pair overlaps, in
rational semantics. -/
theorem noAdjOverlapAux_iff (a : JVal) : ∀ l : List JVal, noAdjOverlapAux a l = true ↔
    List.Chain (fun x y => (endKey x).toRat ≤ (startKey y).toRat) a l
  | [] => by simp [noAdjOverlapAux]
  | b :: rest => by
    rw [List.chain_cons, ← noAdjOverlapAux_iff b rest]
    simp only [noAdjOverlapAux]
    cases hlt : Dec.lt (startKey b) (endKey a) with
    | true =>
      have hn : ¬ (endKey a).toRat ≤ (startKey b).toRat :=
        not_le.2 ((Dec.lt_iff _ _).1 hlt)
      simp [hlt, hn]
    | false =>
      have hle : (endKey a).toRat ≤ (startKey b).toRat := by
        by_contra hc
        rw [not_le] at hc
        rw [(Dec.lt_iff (startKey b) (endKey a)).2 hc] at hlt
        cases hlt
      simp [hlt, hle]

/-- The overlap scan succeeds exactly when adjacent pairs never overlap,
in rational semantics. -/
theorem noAdjOverlap_iff (l : List JVal) : noAdjOverlap l = true ↔
    List.Chain' (fun a b => (endKey a).toRat ≤ (startKey b).toRat) l := by
  cases l with
  | nil => simp [noAdjOverlap, List.Chain']
  | cons a rest => exact noAdjOverlapAux_iff a rest

/-- Membership is preserved by the start-key sort. -/
theorem mem_sortByStart {x : JVal} {l : List JVal} : x ∈ sortByStart l ↔ x ∈ l :=
  (List.perm_insertionSort _ l).mem_iff

/-- The start-key sort produces a list sorted by start time (rational
semantics). -/
theorem sortByStart_sorted (l : List JVal) :
    List.Sorted (fun a b => (startKey a).toRat ≤ (startKey b).toRat) (sortByStart l) := by
  haveI ht : IsTotal JVal (fun a b => Dec.le (startKey a) (startKey b) = true) :=
    ⟨fun a b => by
      rcases le_total (startKey a).toRat (startKey b).toRat with h | h
      · exact Or.inl ((Dec.le_iff _ _).2 h)
      · exact Or.inr ((Dec.le_iff _ _).2 h)⟩
  haveI htr : IsTrans JVal (fun a b => Dec.le (startKey a) (startKey b) = true) :=
    ⟨fun a b c hab hbc =>
      (Dec.le_iff _ _).2 (le_trans ((Dec.le_iff _ _).1 hab) ((Dec.le_iff _ _).1 hbc))⟩
  exact (List.sorted_insertionSort _ l).imp fun hab => (Dec.le_iff _ _).1 hab

/-- C2: `validate_highlights` is false on the empty list and when a member
fails `validate_highlight`; otherwise, after sorting ascending by start,
it is false exactly when some adjacent pair overlaps
(`end_i > start_(i+1)`) and true otherwise, so touching segments
(`end_i = start_(i+1)`) are accepted. -/
theorem C2_validate_highlights_iff (hs : List JVal) :
    validate_highlights hs = true ↔
      hs ≠ [] ∧ (∀ h ∈ hs, validate_highlight h = true) ∧
      List.Chain' (fun a b => (endKey a).toRat ≤ (startKey b).toRat) (sortByStart hs) := by
  unfold validate_highlights
  cases hemp : hs.isEmpty with
  | true =>
    rw [List.isEmpty_iff] at hemp
    simp [hemp]
  | false =>
    have hne : hs ≠ [] := by
      intro hc
      rw [hc] at hemp
      cases hemp
    cases hall : hs.all validate_highlight with
    | true =>
      have hallp : ∀ h ∈ hs, validate_highlight h = true := List.all_eq_true.mp hall
      simp only [hemp, hall, Bool.false_eq_true, if_false, if_true]
      rw [noAdjOverlap_iff]
      constructor
      · intro hch
        exact ⟨hne, hallp, hch⟩
      · rintro ⟨-, -, hch⟩
        exact hch
    | false =>
      have hnall : ¬ ∀ h ∈ hs, validate_highlight h = true := by
        intro hc
        rw [← List.all_eq_true] at hc
        rw [hall] at hc
        cases hc
      simp only [hemp, hall, Bool.false_eq_true, if_false]
      constructor
      · intro hc
        cases hc
      · intro hc
        exact absurd hc.2.1 hnall

/-- A successful extraction attempt yields a start-sorted list of
individually valid, pairwise non-overlapping segments. -/
theorem attemptSegments_sound (r : Option String) (l : List JVal)
    (h : attemptSegments r = some l) :
    List.Sorted (fun a b => (startKey a).toRat ≤ (startKey b).toRat) l ∧
    (∀ x ∈ l, validate_highlight x = true) ∧
    List.Chain' (fun a b => (endKey a).toRat ≤ (startKey b).toRat) l := by
  unfold attemptSegments at h
  cases r with
  | none =>
    dsimp only at h
    cases h
  | some t =>
    dsimp only at h
    by_cases ht : t = ""
    · rw [if_pos ht] at h
      cases h
    · rw [if_neg ht] at h
      cases hj : jsonLoads (stripFence t) with
      | none =>
        rw [hj] at h
        cases h
      | some v =>
        rw [hj] at h
        cases v with
        | arr raw =>
          dsimp only at h
          by_cases hemp : (raw.filter validate_highlight).isEmpty
          · rw [if_pos hemp] at h
            cases h
          · rw [if_neg hemp] at h
            by_cases hov : noAdjOverlap (sortByStart (raw.filter validate_highlight)) = true
            · rw [if_pos hov] at h
              injection h with hl
              subst hl
              refine ⟨sortByStart_sorted _, ?_, (noAdjOverlap_iff _).1 hov⟩
              intro x hx
              exact (List.mem_filter.1 (mem_sortByStart.1 hx)).2
            · rw [if_neg hov] at h
              cases h
        | null => dsimp only at h; cases h
        | bool b => dsimp only at h; cases h
        | num d => dsimp only at h; cases h
        | str s => dsimp only at h; cases h
        | obj fields => dsimp only at h; cases h

/-- Every result of the extraction retry loop is start-sorted, individually
valid and non-overlapping (trivially so when empty). -/
theorem extractGo_sound (replies : Nat → Option String) :
    ∀ n a,
      List.Sorted (fun a b => (startKey a).toRat ≤ (startKey b).toRat)
        (extractGo replies a n) ∧
      (∀ x ∈ extractGo replies a n, validate_highlight x = true) ∧
      List.Chain' (fun a b => (endKey a).toRat ≤ (startKey b).toRat)
        (extractGo replies a n) := by
  intro n
  induction n with
  | zero => intro a; simp [extractGo]
  | succ n ih =>
    intro a
    cases hA : attemptSegments (replies a) with
    | some l =>
      have hs := attemptSegments_sound _ _ hA
      simpa [extractGo, hA] using hs
    | none => simpa [extractGo, hA] using ih (a + 1)

/-- C3: whenever `extract_highlights` returns a non-empty list, the list
is sorted ascending by start time, every element passes
`validate_highlight`, and adjacent pairs satisfy
`end_i <= start_(i+1)` (no overlap). -/
theorem C3_extract_highlights_sound (replies : Nat → Option String) (transcription : String)
    (max_attempts : Nat)
    (_hne : extract_highlights replies transcription max_attempts ≠ []) :
    List.Sorted (fun a b => (startKey a).toRat ≤ (startKey b).toRat)
      (extract_highlights replies transcription max_attempts) ∧
    (∀ x ∈ extract_highlights replies transcription max_attempts,
      validate_highlight x = true) ∧
    List.Chain' (fun a b => (endKey a).toRat ≤ (startKey b).toRat)
      (extract_highlights replies transcription max_attempts) :=
  extractGo_sound replies max_attempts 0

/-- Witness for C3 at the reply of spec section 8 (one 42-second
segment). -/
theorem C3_witness :
    extract_highlights (fun _ => some "[\x7b\"start\": \"10.0\", \"end\": \"52.0\"\x7d]") "t" 3
      ≠ [] ∧
    (List.Sorted (fun a b => (startKey a).toRat ≤ (startKey b).toRat)
      (extract_highlights (fun _ => some "[\x7b\"start\": \"10.0\", \"end\": \"52.0\"\x7d]") "t" 3) ∧
    (∀ x ∈ extract_highlights (fun _ => some "[\x7b\"start\": \"10.0\", \"end\": \"52.0\"\x7d]") "t" 3,
      validate_highlight x = true) ∧
    List.Chain' (fun a b => (endKey a).toRat ≤ (startKey b).toRat)
      (extract_highlights (fun _ => some "[\x7b\"start\": \"10.0\", \"end\": \"52.0\"\x7d]") "t" 3)) := by
  have hne : extract_highlights (fun _ => some "[\x7b\"start\": \"10.0\", \"end\": \"52.0\"\x7d]") "t" 3
      ≠ [] := by
    intro hc
    rw [show extract_highlights (fun _ => some "[\x7b\"start\": \"10.0\", \"end\": \"52.0\"\x7d]") "t" 3
        = [JVal.obj [("start", JVal.str "10.0"), ("end", JVal.str "52.0")]] from rfl] at hc
    cases hc
  exact ⟨hne, C3_extract_highlights_sound _ _ _ hne⟩

/-- The claim-side enumeration of attempt failures coincides with the
attempt loop producing no segments. -/
theorem attemptFails_iff (r : Option String) :
    attemptFails r = true ↔ attemptSegments r = none := by
  cases r with
  | none => simp [attemptFails, attemptSegments]
  | some t =>
    unfold attemptFails attemptSegments
    dsimp only
    by_cases ht : t = ""
    · rw [if_pos ht, if_pos ht]
      simp
    · rw [if_neg ht, if_neg ht]
      cases hj : jsonLoads (stripFence t) with
      | none => simp
      | some v =>
        cases v with
        | arr raw =>
          dsimp only
          by_cases hemp : (raw.filter validate_highlight).isEmpty
          · simp [hemp]
          · rw [if_neg hemp]
            by_cases hov : noAdjOverlap (sortByStart (raw.filter validate_highlight)) = true
            · simp [hemp, hov]
            · simp [hemp, hov]
        | null => simp
        | bool b => simp
        | num d => simp
        | str s => simp
        | obj fields => simp

/-- When every remaining attempt fails, the retry loop returns the empty
list. -/
theorem extractGo_none (replies : Nat → Option String) :
    ∀ n a, (∀ i, i < n → attemptSegments (replies (a + i)) = none) →
      extractGo replies a n = [] := by
  intro n
  induction n with
  | zero => intro a _; rfl
  | succ n ih =>
    intro a hall
    have h0 : attemptSegments (replies a) = none := by
      have := hall 0 (Nat.succ_pos n)
      rwa [Nat.add_zero] at this
    have hrest : ∀ i, i < n → attemptSegments (replies (a + 1 + i)) = none := by
      intro i hi
      have := hall (i + 1) (by omega)
      rwa [show a + (i + 1) = a + 1 + i by omega] at this
    simp [extractGo, h0, ih (a + 1) hrest]

/-- C4: `GetHighlights` never raises for any input content issue and
returns the empty list both when the transcript is empty or
whitespace-only and when every one of the (default 3) extraction attempts
fails validation (no/empty reply, undecodable or non-list JSON, zero
individually-valid segments, or an overlap).  Totality of the embedding
covers the absence of exceptions. -/
theorem C4_GetHighlights_empty (eReplies : Nat → Option String)
    (capReplies : Nat → Nat → Option String) (transcription : String) :
    (pyStrip transcription = "" → GetHighlights eReplies capReplies transcription = []) ∧
    ((∀ i, i < 3 → attemptFails (eReplies i) = true) →
      GetHighlights eReplies capReplies transcription = []) := by
  constructor
  · intro h
    unfold GetHighlights
    rw [if_pos h]
  · intro hf
    unfold GetHighlights
    by_cases hstrip : pyStrip transcription = ""
    · rw [if_pos hstrip]
    · rw [if_neg hstrip]
      have hext : extract_highlights eReplies (pyStrip transcription) 3 = [] := by
        unfold extract_highlights
        apply extractGo_none
        intro i hi
        rw [Nat.zero_add]
        exact (attemptFails_iff _).1 (hf i hi)
      simp [hext]

/-- Witness for C4: a service that never answers and a whitespace-only
transcript both produce the empty result. -/
theorem C4_witness :
    (pyStrip "   " = "" ∧
      GetHighlights (fun _ => none) (fun _ _ => none) "   " = []) ∧
    ((∀ i, i < 3 → attemptFails ((fun _ => (none : Option String)) i) = true) ∧
      GetHighlights (fun _ => none) (fun _ _ => none) "some transcript" = []) :=
  ⟨⟨rfl, (C4_GetHighlights_empty (fun _ => none) (fun _ _ => none) "   ").1 rfl⟩,
   ⟨fun _ _ => rfl,
    (C4_GetHighlights_empty (fun _ => none) (fun _ _ => none) "some transcript").2
      (fun _ _ => rfl)⟩⟩

/-- The line loop collects exactly the parsed transcript lines whose
timestamp lies in `[start, end)`, in transcript order. -/
theorem collectSeg_eq (s e : Dec) : ∀ L : List String,
    collectSeg s e L =
      (((L.filterMap fun ln =>
          match lineMatch ln with
          | some (ts, txt) => if txt = "" then none else some (ts, txt)
          | none => none).filter
        fun p => s.toRat ≤ p.1.toRat ∧ p.1.toRat < e.toRat).map Prod.snd)
  | [] => rfl
  | ln :: rest => by
    have ih := collectSeg_eq s e rest
    cases hm : lineMatch ln with
    | none => simp [collectSeg, hm, List.filterMap_cons, ih]
    | some p =>
      obtain ⟨ts, txt⟩ := p
      by_cases htxt : txt = ""
      · subst htxt
        cases hb : (Dec.lt ts e && Dec.le s ts) <;>
          simp [collectSeg, hm, hb, List.filterMap_cons, ih]
      · have hiff : (Dec.lt ts e && Dec.le s ts) = true ↔
            (s.toRat ≤ ts.toRat ∧ ts.toRat < e.toRat) := by
          rw [Bool.and_eq_true, Dec.lt_iff, Dec.le_iff]
          tauto
        cases hb : (Dec.lt ts e && Dec.le s ts) with
        | true =>
          have hin := hiff.1 hb
          simp [collectSeg, hm, hb, htxt, List.filterMap_cons, List.filter_cons, hin, ih]
        | false =>
          have hnin : ¬ (s.toRat ≤ ts.toRat ∧ ts.toRat < e.toRat) := by
            intro hc
            rw [hiff.2 hc] at hb
            cases hb
          simp [collectSeg, hm, hb, htxt, List.filterMap_cons, List.filter_cons, hnin, ih]

set_option maxRecDepth 40000 in
/-- C5: `extract_text_for_segment` returns the text of exactly those
transcript lines whose timestamp `t` satisfies `start <= t < end`, in
transcript order, joined by newline (the empty string when none is in
range); on lines at timestamps 0.0, 15.5, 30.2, 45.8, 60.0 with window
[15.5, 60.0) it returns exactly the texts at 15.5, 30.2, 45.8 joined by
newline, excluding the lines at 0.0 and 60.0. -/
theorem C5_extract_text_for_segment :
    (∀ (transcription : String) (s e : Dec),
      extract_text_for_segment transcription s e =
        String.intercalate "\n"
          (((parseLines transcription).filter
            fun p => s.toRat ≤ p.1.toRat ∧ p.1.toRat < e.toRat).map Prod.snd)) ∧
    extract_text_for_segment
      "[0.0] Speaker 1: Welcome to our discussion about artificial intelligence.\n[15.5] Speaker 1: Today we explore the fascinating world of machine learning.\n[30.2] Speaker 2: One of the most exciting applications is in video processing.\n[45.8] Speaker 1: Here is how AI can automatically generate video highlights.\n[60.0] Speaker 2: This technology is revolutionizing content creation."
      ⟨155, 1⟩ ⟨600, 1⟩ =
      "Today we explore the fascinating world of machine learning.\nOne of the most exciting applications is in video processing.\nHere is how AI can automatically generate video highlights." := by
  constructor
  · intro t s e
    unfold extract_text_for_segment parseLines
    rw [collectSeg_eq]
  · rfl

/-- The enrichment retry loop never makes more calls than it has attempts
left. -/
theorem genDescGo_le (replies : Nat → Option String) :
    ∀ n a, (genDescGo replies a n).2 ≤ n := by
  intro n
  induction n with
  | zero => intro a; exact le_rfl
  | succ n ih =>
    intro a
    cases hc : replyCaption (replies a) with
    | some cap => simp [genDescGo, hc]
    | none =>
      simp only [genDescGo, hc]
      exact Nat.succ_le_succ (ih (a + 1))

/-- When every remaining reply fails, the enrichment loop returns `none`
after consuming every attempt. -/
theorem genDescGo_none (replies : Nat → Option String) :
    ∀ n a, (∀ i, i < n → replyCaption (replies (a + i)) = none) →
      genDescGo replies a n = (none, n) := by
  intro n
  induction n with
  | zero => intro a _; rfl
  | succ n ih =>
    intro a hall
    have h0 : replyCaption (replies a) = none := by
      have := hall 0 (Nat.succ_pos n)
      rwa [Nat.add_zero] at this
    have hrest : ∀ i, i < n → replyCaption (replies (a + 1 + i)) = none := by
      intro i hi
      have := hall (i + 1) (by omega)
      rwa [show a + (i + 1) = a + 1 + i by omega] at this
    simp [genDescGo, h0, ih (a + 1) hrest]

/-- The enrichment loop returns the caption of the first good reply,
having made exactly that many service calls. -/
theorem genDescGo_first (replies : Nat → Option String) :
    ∀ n a k cap, k < n →
      (∀ j, j < k → replyCaption (replies (a + j)) = none) →
      replyCaption (replies (a + k)) = some cap →
      genDescGo replies a n = (some cap, k + 1) := by
  intro n
  induction n with
  | zero => intro a k cap hk; omega
  | succ n ih =>
    intro a k cap hk hprev hgood
    cases k with
    | zero =>
      rw [Nat.add_zero] at hgood
      simp [genDescGo, hgood]
    | succ k =>
      have h0 : replyCaption (replies a) = none := by
        have := hprev 0 (Nat.succ_pos k)
        rwa [Nat.add_zero] at this
      have hprev' : ∀ j, j < k → replyCaption (replies (a + 1 + j)) = none := by
        intro j hj
        have := hprev (j + 1) (by omega)
        rwa [show a + (j + 1) = a + 1 + j by omega] at this
      have hgood' : replyCaption (replies (a + 1 + k)) = some cap := by
        rwa [show a + (k + 1) = a + 1 + k by omega] at hgood
      have := ih (a + 1) k cap (by omega) hprev' hgood'
      simp [genDescGo, h0, this]

/-- C6: the caption enricher returns `(none, 0)` (no service call at all)
on empty or whitespace-only segment text; it makes at most 3 calls;
otherwise it returns the (already trimmed) caption of the first reply that
parses to an object with a string `caption_with_hashtags` member, making
no further calls, and returns `none` rather than raising after all 3
attempts fail. -/
theorem C6_generate_description_and_hashtags (replies : Nat → Option String)
    (segment_text : String) :
    (pyStrip segment_text = "" →
      generate_description_and_hashtags replies segment_text 3 = (none, 0)) ∧
    (generate_description_and_hashtags replies segment_text 3).2 ≤ 3 ∧
    (∀ k cap, pyStrip segment_text ≠ "" → k < 3 →
      (∀ j, j < k → replyCaption (replies j) = none) →
      replyCaption (replies k) = some cap →
      generate_description_and_hashtags replies segment_text 3 = (some cap, k + 1)) ∧
    (pyStrip segment_text ≠ "" → (∀ i, i < 3 → replyCaption (replies i) = none) →
      generate_description_and_hashtags replies segment_text 3 = (none, 3)) := by
  refine ⟨?_, ?_, ?_, ?_⟩
  · intro h
    unfold generate_description_and_hashtags
    rw [if_pos h]
  · unfold generate_description_and_hashtags
    by_cases h : pyStrip segment_text = ""
    · rw [if_pos h]
      exact Nat.zero_le 3
    · rw [if_neg h]
      exact genDescGo_le replies 3 0
  · intro k cap hne hk hprev hgood
    unfold generate_description_and_hashtags
    rw [if_neg hne]
    apply genDescGo_first replies 3 0 k cap hk
    · intro j hj
      rw [Nat.zero_add]
      exact hprev j hj
    · rw [Nat.zero_add]
      exact hgood
  · intro hne hall
    unfold generate_description_and_hashtags
    rw [if_neg hne]
    apply genDescGo_none
    intro i hi
    rw [Nat.zero_add]
    exact hall i hi

/-- Witness for C6: empty text makes no call; with text present the
caption of the first good reply (the second attempt here) is returned
after exactly two calls. -/
theorem C6_witness :
    (pyStrip "  " = "" ∧
      generate_description_and_hashtags (fun _ => none) "  " 3 = (none, 0)) ∧
    (pyStrip "hi" ≠ "" ∧
      replyCaption ((fun n => if n = 1
          then some "\x7b\"caption_with_hashtags\": \" Nice clip #ai \"\x7d"
          else none) 1) = some "Nice clip #ai" ∧
      generate_description_and_hashtags
        (fun n => if n = 1
          then some "\x7b\"caption_with_hashtags\": \" Nice clip #ai \"\x7d"
          else none) "hi" 3 = (some "Nice clip #ai", 2)) := by
  refine ⟨⟨rfl, (C6_generate_description_and_hashtags (fun _ => none) "  ").1 rfl⟩,
    ⟨by decide, rfl, ?_⟩⟩
  apply (C6_generate_description_and_hashtags _ "hi").2.2.1 1 "Nice clip #ai" (by decide)
    (by decide)
  · intro j hj
    have hj0 : j = 0 := by omega
    subst hj0
    rfl
  · rfl

/-- A successful `pyFloat` is a successful `float` conversion. -/
theorem pyFloatConv_ok_of_pyFloat {v : JVal} {d : Dec} (h : pyFloat v = some d) :
    pyFloatConv v = ConvRes.ok d := by
  unfold pyFloat at h
  cases hc : pyFloatConv v with
  | ok d' =>
    rw [hc] at h
    injection h with hd
    rw [hd]
  | valErr =>
    rw [hc] at h
    cases h
  | typeErr =>
    rw [hc] at h
    cases h

/-- C7 (amended): on validated segments the per-segment loop of
`GetHighlights` never aborts, and its result is exactly the independent
per-segment processing of each element: a failing segment (empty
recovered text, no caption, or an empty trimmed caption — the Python
truthiness test of line 383) is skipped in isolation, and exactly the
segments passing every step contribute an `EnrichedHighlightData` record
merging their converted start/end with the recovered text and caption. -/
theorem C7_processSegs_isolated (capReplies : Nat → Nat → Option String)
    (transcription : String) :
    ∀ (segs : List JVal) (idx : Nat),
      (∀ s ∈ segs, validate_highlight s = true) →
      processSegs capReplies transcription segs idx =
        some ((enumFromL idx segs).filterMap
          fun p => processOne (capReplies p.1) transcription p.2) := by
  intro segs
  induction segs with
  | nil => intro idx _; rfl
  | cons seg rest ih =>
    intro idx hval
    have hv := hval seg (List.mem_cons_self seg rest)
    obtain ⟨fields, sv, ev, s, e, hseg, hs, he, hfs, hfe, -, -, -⟩ :=
      (validate_highlight_spec seg).1 hv
    subst hseg
    have hcs : pyFloatConv sv = ConvRes.ok s := pyFloatConv_ok_of_pyFloat hfs
    have hce : pyFloatConv ev = ConvRes.ok e := pyFloatConv_ok_of_pyFloat hfe
    have ihr := ih (idx + 1) (fun x hx => hval x (List.mem_cons_of_mem _ hx))
    simp only [enumFromL, List.filterMap_cons]
    by_cases htxt : pyStrip (extract_text_for_segment transcription s e) = ""
    · have hpo : processOne (capReplies idx) transcription (JVal.obj fields) = none := by
        simp [processOne, hs, he, hfs, hfe, htxt]
      have hps : processSegs capReplies transcription (JVal.obj fields :: rest) idx
          = processSegs capReplies transcription rest (idx + 1) := by
        simp [processSegs, hs, he, hcs, hce, htxt]
      rw [hps, ihr, hpo]
    · cases hcap : (generate_description_and_hashtags (capReplies idx)
          (extract_text_for_segment transcription s e) 3).1 with
      | some cap =>
        by_cases hcap0 : cap = ""
        · have hpo : processOne (capReplies idx) transcription (JVal.obj fields) = none := by
            simp [processOne, hs, he, hfs, hfe, htxt, hcap, hcap0]
          have hps : processSegs capReplies transcription (JVal.obj fields :: rest) idx
              = processSegs capReplies transcription rest (idx + 1) := by
            simp [processSegs, hs, he, hcs, hce, htxt, hcap, hcap0]
          rw [hps, ihr, hpo]
        · have hpo : processOne (capReplies idx) transcription (JVal.obj fields)
              = some ⟨s, e, cap, extract_text_for_segment transcription s e⟩ := by
            simp [processOne, hs, he, hfs, hfe, htxt, hcap, hcap0]
          have hps : processSegs capReplies transcription (JVal.obj fields :: rest) idx
              = match processSegs capReplies transcription rest (idx + 1) with
                | some l => some (⟨s, e, cap, extract_text_for_segment transcription s e⟩ :: l)
                | none => none := by
            simp [processSegs, hs, he, hcs, hce, htxt, hcap, hcap0]
          rw [hps, ihr, hpo]
      | none =>
        have hpo : processOne (capReplies idx) transcription (JVal.obj fields) = none := by
          simp [processOne, hs, he, hfs, hfe, htxt, hcap]
        have hps : processSegs capReplies transcription (JVal.obj fields :: rest) idx
            = processSegs capReplies transcription rest (idx + 1) := by
          simp [processSegs, hs, he, hcs, hce, htxt, hcap]
        rw [hps, ihr, hpo]

/-- Witness for C7: one validated 30-second segment over a one-line
transcript, with a caption service that answers at once. -/
theorem C7_witness :
    (∀ s ∈ [JVal.obj [("start", JVal.num ⟨0, 0⟩), ("end", JVal.num ⟨30, 0⟩)]],
      validate_highlight s = true) ∧
    processSegs (fun _ _ => some "\x7b\"caption_with_hashtags\": \"Cap #a\"\x7d")
        "[5.0] hello there"
        [JVal.obj [("start", JVal.num ⟨0, 0⟩), ("end", JVal.num ⟨30, 0⟩)]] 0 =
      some ((enumFromL 0 [JVal.obj [("start", JVal.num ⟨0, 0⟩), ("end", JVal.num ⟨30, 0⟩)]]).filterMap
        fun p => processOne ((fun _ _ => some "\x7b\"caption_with_hashtags\": \"Cap #a\"\x7d") p.1)
          "[5.0] hello there" p.2) := by
  have hval : ∀ s ∈ [JVal.obj [("start", JVal.num ⟨0, 0⟩), ("end", JVal.num ⟨30, 0⟩)]],
      validate_highlight s = true := by
    intro s hsm
    rw [List.mem_singleton] at hsm
    subst hsm
    rfl
  exact ⟨hval, C7_processSegs_isolated _ _ _ 0 hval⟩

theorem fjson_data : "```json".data = [btick, btick, btick, 'j', 's', 'o', 'n'] := by decide

theorem fence3_data : "```".data = [btick, btick, btick] := by decide

/-- The head of a `dropWhile` result fails the predicate. -/
theorem dropWhile_head_false (p : Char → Bool) :
    ∀ (x : List Char) (c : Char) (r : List Char), x.dropWhile p = c :: r → p c = false
  | [], c, r => by intro h; cases h
  | a :: t, c, r => by
    intro h
    rw [List.dropWhile_cons] at h
    by_cases hp : p a = true
    · rw [if_pos hp] at h
      exact dropWhile_head_false p t c r h
    · rw [if_neg hp] at h
      injection h with h1 _
      subst h1
      exact Bool.eq_false_iff.mpr hp

/-- Trimming erases an all-whitespace list. -/
theorem dropTrailWs_of_allWs (x : List Char) (h : x.all pyWs = true) : dropTrailWs x = [] := by
  unfold dropTrailWs
  rw [List.dropWhile_eq_nil_iff.2]
  · rfl
  · intro a ha
    exact List.all_eq_true.1 h a (List.mem_reverse.1 ha)

/-- Only an all-whitespace list is erased by the trim. -/
theorem allWs_of_dropTrailWs (x : List Char) (h : dropTrailWs x = []) : x.all pyWs = true := by
  unfold dropTrailWs at h
  rw [List.reverse_eq_nil_iff, List.dropWhile_eq_nil_iff] at h
  rw [List.all_eq_true]
  intro a ha
  exact h a (List.mem_reverse.2 ha)

/-- A trimmed list is either empty or keeps the original head. -/
theorem dropTrailWs_head (c : Char) (r : List Char) :
    dropTrailWs (c :: r) = [] ∨ ∃ r', dropTrailWs (c :: r) = c :: r' := by
  unfold dropTrailWs
  rw [List.reverse_cons, List.dropWhile_append]
  cases hM : (r.reverse.dropWhile pyWs).isEmpty with
  | true =>
    simp only [hM, if_true]
    by_cases hc : pyWs c = true
    · exact Or.inl (by simp [List.dropWhile_cons, hc])
    · exact Or.inr ⟨[], by simp [List.dropWhile_cons, hc]⟩
  | false =>
    simp only [hM, Bool.false_eq_true, if_false]
    exact Or.inr ⟨(r.reverse.dropWhile pyWs).reverse, by simp⟩

/-- Consing a head onto a list whose trailing-whitespace trim keeps
something (or a non-whitespace head) commutes with the trim. -/
theorem dropTrailWs_cons_of (c : Char) (M : List Char)
    (h : pyWs c = false ∨ dropTrailWs M ≠ []) :
    dropTrailWs (c :: M) = c :: dropTrailWs M := by
  unfold dropTrailWs
  rw [List.reverse_cons, List.dropWhile_append]
  cases hM : (M.reverse.dropWhile pyWs).isEmpty with
  | true =>
    have hMnil : dropTrailWs M = [] := by
      unfold dropTrailWs
      rw [List.isEmpty_iff] at hM
      rw [hM]
      rfl
    have hc : pyWs c = false := by
      rcases h with h | h
      · exact h
      · exact absurd hMnil h
    simp only [hM, if_true]
    unfold dropTrailWs at hMnil
    rw [hMnil]
    simp [List.dropWhile_cons, hc]
  | false =>
    simp only [hM, Bool.false_eq_true, if_false]
    simp

/-- In front of a newline-then-fence suffix, the whitespace-then-fence
test holds exactly on all-whitespace backtick-free prefixes. -/
theorem wsThenFence_append : ∀ M : List Char, (∀ c ∈ M, c ≠ btick) →
    wsThenFence (M ++ '\n' :: "```".data) = M.all pyWs
  | [] => fun _ => by
    rw [List.nil_append, List.all_nil]
    decide
  | c :: M' => fun hb => by
    have hc : c ≠ btick := hb c (List.mem_cons_self c M')
    have hpre : List.isPrefixOf "```".data ((c :: M') ++ '\n' :: "```".data) = false := by
      rw [fence3_data]
      simp only [List.cons_append, List.isPrefixOf]
      rw [show (btick == c) = false from beq_eq_false_iff_ne.2 (Ne.symm hc)]
      rfl
    rw [List.cons_append]
    simp only [wsThenFence]
    rw [← List.cons_append, hpre]
    simp only [if_false, Bool.false_eq_true]
    rw [List.all_cons]
    by_cases hwc : pyWs c = true
    · rw [if_pos hwc, hwc, Bool.true_and]
      exact wsThenFence_append M' (fun x hx => hb x (List.mem_cons_of_mem _ hx))
    · rw [if_neg hwc]
      rw [Bool.not_eq_true] at hwc
      rw [hwc, Bool.false_and]

/-- In front of a newline-then-fence suffix, the non-greedy group captures
exactly the prefix with its trailing whitespace removed. -/
theorem takeGroup1_append : ∀ M : List Char, (∀ c ∈ M, c ≠ btick) →
    takeGroup1 (M ++ '\n' :: "```".data) = some (dropTrailWs M)
  | [] => fun _ => by
    rw [List.nil_append]
    decide
  | c :: M' => fun hb => by
    have hb' : ∀ x ∈ M', x ≠ btick := fun x hx => hb x (List.mem_cons_of_mem _ hx)
    have hwtf := wsThenFence_append (c :: M') hb
    rw [List.cons_append] at hwtf
    rw [List.cons_append]
    simp only [takeGroup1]
    cases hall : (c :: M').all pyWs with
    | true =>
      rw [hall] at hwtf
      simp only [hwtf, if_true]
      rw [dropTrailWs_of_allWs _ hall]
    | false =>
      rw [hall] at hwtf
      simp only [hwtf, Bool.false_eq_true, if_false]
      rw [takeGroup1_append M' hb']
      cases hr : dropTrailWs M' with
      | nil =>
        have hM' := allWs_of_dropTrailWs M' hr
        have hcw : pyWs c = false := by
          by_contra hcc
          rw [Bool.not_eq_false] at hcc
          have hcons : (c :: M').all pyWs = true := by
            rw [List.all_cons, hcc, hM']
            rfl
          rw [hcons] at hall
          cases hall
        rw [dropTrailWs_cons_of c M' (Or.inl hcw), hr]
      | cons a t =>
        rw [dropTrailWs_cons_of c M' (Or.inr (by rw [hr]; exact List.cons_ne_nil a t)), hr]

/-- A backtick-free text contains no fenced block. -/
theorem fenceSearch_none : ∀ cs : List Char, (∀ c ∈ cs, c ≠ btick) → fenceSearch cs = none
  | [] => fun _ => rfl
  | c :: r => fun hb => by
    have hc : c ≠ btick := hb c (List.mem_cons_self c r)
    have hpre : List.isPrefixOf "```json".data (c :: r) = false := by
      rw [fjson_data]
      simp only [List.isPrefixOf]
      rw [show (btick == c) = false from beq_eq_false_iff_ne.2 (Ne.symm hc)]
      rfl
    simp only [fenceSearch, hpre, Bool.false_eq_true, if_false]
    exact fenceSearch_none r (fun x hx => hb x (List.mem_cons_of_mem _ hx))

/-- Left trimming is idempotent. -/
theorem dropWhile_dropWhile (p : Char → Bool) (l : List Char) :
    (l.dropWhile p).dropWhile p = l.dropWhile p := by
  cases h : l.dropWhile p with
  | nil => rfl
  | cons c r =>
    have hc := dropWhile_head_false p l c r h
    simp [List.dropWhile_cons, hc]

/-- Trailing-whitespace removal is idempotent. -/
theorem dropTrailWs_idem (x : List Char) : dropTrailWs (dropTrailWs x) = dropTrailWs x := by
  unfold dropTrailWs
  rw [List.reverse_reverse, dropWhile_dropWhile]

/-- A trimmed suffix of a left-trimmed list needs no further left trim. -/
theorem dropWhile_dropTrailWs (x : List Char) :
    (dropTrailWs (x.dropWhile pyWs)).dropWhile pyWs = dropTrailWs (x.dropWhile pyWs) := by
  cases hM : x.dropWhile pyWs with
  | nil => rfl
  | cons c r =>
    have hc : pyWs c = false := dropWhile_head_false pyWs x c r hM
    rcases dropTrailWs_head c r with h | ⟨r', h⟩
    · rw [h]
      rfl
    · rw [h]
      simp [List.dropWhile_cons, hc]

/-- Stripping an already stripped list is the identity. -/
theorem pyStripL_dropTrail (x : List Char) :
    pyStripL (dropTrailWs (x.dropWhile pyWs)) = dropTrailWs (x.dropWhile pyWs) := by
  unfold pyStripL
  rw [dropWhile_dropTrailWs x, dropTrailWs_idem]

/-- On a backtick-free reply the fence-stripping step only trims
whitespace. -/
theorem stripFence_plain (body : String) (hb : ∀ c ∈ body.data, c ≠ btick) :
    stripFence body = pyStrip body := by
  unfold stripFence
  rw [fenceSearch_none body.data hb]

/-- The fence search on a fenced backtick-free reply finds the trimmed
body as its capture group. -/
theorem fenceSearch_fenced (body : String) (hb : ∀ c ∈ body.data, c ≠ btick) :
    fenceSearch (("```json\n" ++ body ++ "\n```").data)
      = some (dropTrailWs (body.data.dropWhile pyWs)) := by
  have hdata : ("```json\n" ++ body ++ "\n```").data
      = "```json".data ++ ('\n' :: (body.data ++ '\n' :: "```".data)) := by
    rw [String.data_append, String.data_append]
    rw [show ("```json\n").data = "```json".data ++ ['\n'] from by decide]
    rw [show ("\n```").data = '\n' :: "```".data from by decide]
    simp
  rw [hdata]
  have hpre : List.isPrefixOf "```json".data
      ("```json".data ++ ('\n' :: (body.data ++ '\n' :: "```".data))) = true := by
    rw [List.isPrefixOf_iff_prefix]
    exact List.prefix_append _ _
  have hdrop : ("```json".data ++ ('\n' :: (body.data ++ '\n' :: "```".data))).drop 7
      = '\n' :: (body.data ++ '\n' :: "```".data) := by
    rw [show 7 = ("```json".data).length from rfl]
    exact List.drop_left _ _
  rw [show "```json".data ++ ('\n' :: (body.data ++ '\n' :: "```".data))
      = btick :: ([btick, btick, 'j', 's', 'o', 'n'] ++ ('\n' :: (body.data ++ '\n' :: "```".data)))
      from by rw [fjson_data]; rfl]
  simp only [fenceSearch]
  rw [show btick :: ([btick, btick, 'j', 's', 'o', 'n'] ++ ('\n' :: (body.data ++ '\n' :: "```".data)))
      = "```json".data ++ ('\n' :: (body.data ++ '\n' :: "```".data))
      from by rw [fjson_data]; rfl]
  rw [hpre]
  simp only [if_true]
  rw [hdrop]
  rw [show ('\n' :: (body.data ++ '\n' :: "```".data)).dropWhile pyWs
      = (body.data ++ '\n' :: "```".data).dropWhile pyWs from by
    simp [List.dropWhile_cons, show pyWs '\n' = true from by decide]]
  rw [List.dropWhile_append]
  cases hM : (body.data.dropWhile pyWs).isEmpty with
  | true =>
    simp only [hM, if_true]
    rw [show ('\n' :: "```".data).dropWhile pyWs = "```".data from by decide]
    rw [show takeGroup1 "```".data = some [] from by decide]
    have hbd : body.data.dropWhile pyWs = [] := by
      rw [List.isEmpty_iff] at hM
      exact hM
    rw [hbd]
    rfl
  | false =>
    simp only [hM, Bool.false_eq_true, if_false]
    have hMb : ∀ c ∈ body.data.dropWhile pyWs, c ≠ btick :=
      fun c hc => hb c ((List.dropWhile_sublist pyWs).subset hc)
    rw [takeGroup1_append _ hMb]

/-- Stripping the fence from a fenced backtick-free reply yields the
trimmed body. -/
theorem stripFence_fenced (body : String) (hb : ∀ c ∈ body.data, c ≠ btick) :
    stripFence ("```json\n" ++ body ++ "\n```") = pyStrip body := by
  unfold stripFence
  rw [fenceSearch_fenced body hb]
  show String.mk (pyStripL (dropTrailWs (body.data.dropWhile pyWs))) = pyStrip body
  rw [pyStripL_dropTrail]
  rfl

/-- The fence search skips over backtick-free prose one
position at a time, exactly as `re.search` does. -/
theorem fenceSearch_append : ∀ p : List Char, (∀ c ∈ p, c ≠ btick) →
    ∀ X : List Char, fenceSearch (p ++ X) = fenceSearch X
  | [] => fun _ X => by rw [List.nil_append]
  | c :: r => fun hb X => by
    have hc : c ≠ btick := hb c (List.mem_cons_self c r)
    have hpre : List.isPrefixOf "```json".data (c :: (r ++ X)) = false := by
      rw [fjson_data]
      simp only [List.isPrefixOf]
      rw [show (btick == c) = false from beq_eq_false_iff_ne.2 (Ne.symm hc)]
      rfl
    rw [List.cons_append]
    simp only [fenceSearch, hpre, Bool.false_eq_true, if_false]
    exact fenceSearch_append r (fun x hx => hb x (List.mem_cons_of_mem _ hx)) X

/-- Backtick-free prose before the fenced block does not change the
stripping result. -/
theorem stripFence_prose (prose body : String)
    (hp : ∀ c ∈ prose.data, c ≠ btick) (hb : ∀ c ∈ body.data, c ≠ btick) :
    stripFence (prose ++ ("```json\n" ++ body ++ "\n```")) = pyStrip body := by
  unfold stripFence
  rw [String.data_append, fenceSearch_append prose.data hp _, fenceSearch_fenced body hb]
  show String.mk (pyStripL (dropTrailWs (body.data.dropWhile pyWs))) = pyStrip body
  rw [pyStripL_dropTrail]
  rfl

/-- C8 (amended): both the Extractor and the Enricher strip an optional
```json-tagged markdown code fence before JSON parsing, so a reply
wrapped in a ```json fenced block — with or without backtick-free prose
before it — is processed exactly like the identical bare reply: the
string fed to `json.loads` is the same, and the per-attempt outcome of
each component is the same.  A fence without the `json` tag is not
stripped (see the counterexample). -/
theorem C8_fence_stripping (body : String) (hb : ∀ c ∈ body.data, c ≠ btick) :
    stripFence ("```json\n" ++ body ++ "\n```") = stripFence body ∧
    jsonLoads (stripFence ("```json\n" ++ body ++ "\n```")) = jsonLoads (stripFence body) ∧
    (∀ prose : String, (∀ c ∈ prose.data, c ≠ btick) →
      stripFence (prose ++ ("```json\n" ++ body ++ "\n```")) = stripFence body) ∧
    attemptSegments (some ("```json\n" ++ body ++ "\n```")) = attemptSegments (some body) ∧
    replyCaption (some ("```json\n" ++ body ++ "\n```")) = replyCaption (some body) := by
  have h1 := stripFence_fenced body hb
  have h2 := stripFence_plain body hb
  have h12 : stripFence ("```json\n" ++ body ++ "\n```") = stripFence body := h1.trans h2.symm
  have hne : ("```json\n" ++ body ++ "\n```") ≠ "" := by
    intro hc
    have hlen : ("```json\n").length + body.length + ("\n```").length = 0 := by
      rw [← String.length_append, ← String.length_append, hc]
      rfl
    rw [show ("```json\n").length = 8 from rfl, show ("\n```").length = 4 from rfl] at hlen
    omega
  refine ⟨h12, by rw [h12],
    fun prose hp => (stripFence_prose prose body hp hb).trans h2.symm, ?_, ?_⟩
  · by_cases hbody : body = ""
    · subst hbody
      rfl
    · unfold attemptSegments
      dsimp only
      rw [if_neg hne, if_neg hbody, h1, h2]
  · by_cases hbody : body = ""
    · subst hbody
      rfl
    · unfold replyCaption
      dsimp only
      rw [if_neg hne, if_neg hbody, h1, h2]

/-- Counterexample to C8 as stated: the code searches only for a
```json-tagged fence, so a reply wrapped in a plain untagged markdown
code fence is not unwrapped and fails to parse, while the identical bare
reply succeeds. -/
theorem C8_counterexample :
    attemptSegments (some ("```\n[\x7b\"start\": 10.0, \"end\": 52.0\x7d]\n```"))
      ≠ attemptSegments (some "[\x7b\"start\": 10.0, \"end\": 52.0\x7d]") := by
  intro hc
  rw [show attemptSegments (some ("```\n[\x7b\"start\": 10.0, \"end\": 52.0\x7d]\n```"))
      = none from rfl] at hc
  rw [show attemptSegments (some "[\x7b\"start\": 10.0, \"end\": 52.0\x7d]")
      = some [JVal.obj [("start", JVal.num ⟨100, 1⟩), ("end", JVal.num ⟨520, 1⟩)]]
      from rfl] at hc
  exact Option.noConfusion hc

/-- Witness for C8 at the backtick-free reply body `[1]`. -/
theorem C8_witness :
    (∀ c ∈ ("[1]" : String).data, c ≠ btick) ∧
    (stripFence ("```json\n" ++ "[1]" ++ "\n```") = stripFence "[1]" ∧
      jsonLoads (stripFence ("```json\n" ++ "[1]" ++ "\n```")) = jsonLoads (stripFence "[1]") ∧
      (∀ prose : String, (∀ c ∈ prose.data, c ≠ btick) →
        stripFence (prose ++ ("```json\n" ++ "[1]" ++ "\n```")) = stripFence "[1]") ∧
      attemptSegments (some ("```json\n" ++ "[1]" ++ "\n```")) = attemptSegments (some "[1]") ∧
      replyCaption (some ("```json\n" ++ "[1]" ++ "\n```")) = replyCaption (some "[1]")) :=
  ⟨by decide, C8_fence_stripping "[1]" (by decide)⟩

/-- A whitespace character is never a digit. -/
theorem pyWs_false_of_digit (c : Char) (h : c.isDigit = true) : pyWs c = false := by
  by_contra hc
  rw [Bool.not_eq_false] at hc
  simp only [pyWs, Bool.or_eq_true, decide_eq_true_eq] at hc
  rcases hc with ((((hc | hc) | hc) | hc) | hc) | hc <;> subst hc <;> exact absurd h (by decide)

/-- A digit is never a whitespace character. -/
theorem isDigit_false_of_pyWs (c : Char) (h : pyWs c = true) : c.isDigit = false := by
  by_contra hcc
  rw [Bool.not_eq_false] at hcc
  rw [pyWs_false_of_digit c hcc] at h
  cases h

/-- Every successful `lineMatch` comes from a line that begins, after
optional whitespace, with a bracketed decimal timestamp
`[ digits . digits ]` (whitespace allowed inside the brackets, as the
regex permits), and the parsed timestamp is its decimal value. -/
theorem lineMatch_shape (ln : String) (ts : Dec) (txt : String)
    (h : lineMatch ln = some (ts, txt)) :
    ∃ w1 w2 d1 d2 w3 rest,
      ln.data = w1 ++ '[' :: (w2 ++ (d1 ++ ('.' :: (d2 ++ (w3 ++ (']' :: rest)))))) ∧
      w1.all pyWs = true ∧ w2.all pyWs = true ∧ w3.all pyWs = true ∧
      d1 ≠ [] ∧ d2 ≠ [] ∧ d1.all Char.isDigit = true ∧ d2.all Char.isDigit = true ∧
      ts = ⟨(digitsToNat d1 * 10 ^ d2.length + digitsToNat d2 : Nat), d2.length⟩ := by
  unfold lineMatch at h
  cases hdw : ln.data.dropWhile pyWs with
  | nil =>
    rw [hdw] at h
    exact Option.noConfusion h
  | cons c r0 =>
    rw [hdw] at h
    have hstart := List.takeWhile_append_dropWhile pyWs ln.data
    rw [hdw] at hstart
    split at h
    · rename_i r0x heq
      injection heq with hc hr0
      subst hc
      subst hr0
      cases hd1 : ((r0.dropWhile pyWs).takeWhile Char.isDigit).isEmpty with
      | true => simp [hd1] at h
      | false =>
        have hd1n : ¬ (((r0.dropWhile pyWs).takeWhile Char.isDigit).isEmpty = true) := by
          rw [hd1]
          exact Bool.false_ne_true
        rw [if_neg hd1n] at h
        cases hr2 : (r0.dropWhile pyWs).dropWhile Char.isDigit with
        | nil =>
          rw [hr2] at h
          exact Option.noConfusion h
        | cons c2 r3 =>
          rw [hr2] at h
          split at h
          · rename_i r3x heq2
            injection heq2 with hc2 hr3
            subst hc2
            subst hr3
            cases hd2 : (r3.takeWhile Char.isDigit).isEmpty with
            | true => simp [hd2] at h
            | false =>
              have hd2n : ¬ ((r3.takeWhile Char.isDigit).isEmpty = true) := by
                rw [hd2]
                exact Bool.false_ne_true
              rw [if_neg hd2n] at h
              cases hr4 : (r3.dropWhile Char.isDigit).dropWhile pyWs with
              | nil =>
                rw [hr4] at h
                exact Option.noConfusion h
              | cons c3 r5 =>
                rw [hr4] at h
                split at h
                · rename_i r5x heq3
                  injection heq3 with hc3 hr5
                  subst hc3
                  subst hr5
                  injection h with hpair
                  have hts := congrArg Prod.fst hpair
                  dsimp only at hts
                  have hstart2 := List.takeWhile_append_dropWhile pyWs r0
                  have hstart3 := List.takeWhile_append_dropWhile Char.isDigit (r0.dropWhile pyWs)
                  have hstart4 := List.takeWhile_append_dropWhile Char.isDigit r3
                  have hstart5 := List.takeWhile_append_dropWhile pyWs (r3.dropWhile Char.isDigit)
                  refine ⟨ln.data.takeWhile pyWs, r0.takeWhile pyWs,
                    (r0.dropWhile pyWs).takeWhile Char.isDigit,
                    r3.takeWhile Char.isDigit,
                    (r3.dropWhile Char.isDigit).takeWhile pyWs,
                    r5, ?_, ?_, ?_, ?_, ?_, ?_, ?_, ?_, ?_⟩
                  · rw [← hr4, hstart5, hstart4, ← hr2, hstart3, hstart2, ← hdw,
                      List.takeWhile_append_dropWhile]
                  · exact List.all_eq_true.2 fun a ha => List.mem_takeWhile_imp ha
                  · exact List.all_eq_true.2 fun a ha => List.mem_takeWhile_imp ha
                  · exact List.all_eq_true.2 fun a ha => List.mem_takeWhile_imp ha
                  · intro hcn
                    rw [hcn] at hd1
                    cases hd1
                  · intro hcn
                    rw [hcn] at hd2
                    cases hd2
                  · exact List.all_eq_true.2 fun a ha => List.mem_takeWhile_imp ha
                  · exact List.all_eq_true.2 fun a ha => List.mem_takeWhile_imp ha
                  · exact hts.symm
                · exact Option.noConfusion h
          · exact Option.noConfusion h
    · exact Option.noConfusion h

/-- A line whose bracketed timestamp is an integer with no decimal point
is never matched, whatever follows the closing bracket. -/
theorem lineMatch_intBracket (w1 w2 ds w3 rest : List Char)
    (h1 : w1.all pyWs = true) (h2 : w2.all pyWs = true) (h3 : w3.all pyWs = true)
    (hne : ds ≠ []) (hd : ds.all Char.isDigit = true) :
    lineMatch ⟨w1 ++ '[' :: (w2 ++ (ds ++ (w3 ++ (']' :: rest))))⟩ = none := by
  unfold lineMatch
  have hdat : (⟨w1 ++ '[' :: (w2 ++ (ds ++ (w3 ++ (']' :: rest))))⟩ : String).data
      = w1 ++ '[' :: (w2 ++ (ds ++ (w3 ++ (']' :: rest)))) := rfl
  rw [hdat]
  have hdw : (w1 ++ '[' :: (w2 ++ (ds ++ (w3 ++ (']' :: rest))))).dropWhile pyWs
      = '[' :: (w2 ++ (ds ++ (w3 ++ (']' :: rest)))) := by
    rw [List.dropWhile_append_of_pos (List.all_eq_true.1 h1)]
    rw [List.dropWhile_cons, if_neg (by decide)]
  rw [hdw]
  have hr1 : (w2 ++ (ds ++ (w3 ++ (']' :: rest)))).dropWhile pyWs
      = ds ++ (w3 ++ (']' :: rest)) := by
    rw [List.dropWhile_append_of_pos (List.all_eq_true.1 h2)]
    cases ds with
    | nil => exact absurd rfl hne
    | cons d ds2 =>
      have hdd : d.isDigit = true := List.all_eq_true.1 hd d (List.mem_cons_self d ds2)
      rw [List.cons_append, List.dropWhile_cons,
        if_neg (by rw [pyWs_false_of_digit d hdd]; exact Bool.false_ne_true)]
  have htk : (ds ++ (w3 ++ (']' :: rest))).takeWhile Char.isDigit = ds := by
    rw [List.takeWhile_append_of_pos (List.all_eq_true.1 hd)]
    have hz : (w3 ++ (']' :: rest)).takeWhile Char.isDigit = [] := by
      cases w3 with
      | nil => rw [List.nil_append, List.takeWhile_cons, if_neg (by decide)]
      | cons cw w4 =>
        have hcw : pyWs cw = true := List.all_eq_true.1 h3 cw (List.mem_cons_self cw w4)
        rw [List.cons_append, List.takeWhile_cons,
          if_neg (by rw [isDigit_false_of_pyWs cw hcw]; exact Bool.false_ne_true)]
    rw [hz, List.append_nil]
  have hdp : (ds ++ (w3 ++ (']' :: rest))).dropWhile Char.isDigit = w3 ++ (']' :: rest) := by
    rw [List.dropWhile_append_of_pos (List.all_eq_true.1 hd)]
    cases w3 with
    | nil => rw [List.nil_append, List.dropWhile_cons, if_neg (by decide)]
    | cons cw w4 =>
      have hcw : pyWs cw = true := List.all_eq_true.1 h3 cw (List.mem_cons_self cw w4)
      rw [List.cons_append, List.dropWhile_cons,
        if_neg (by rw [isDigit_false_of_pyWs cw hcw]; exact Bool.false_ne_true)]
  have hds : ds.isEmpty = false := by
    cases ds with
    | nil => exact absurd rfl hne
    | cons d ds2 => rfl
  split
  · rename_i r0x heq
    injection heq with hch hr0
    subst hr0
    rw [hr1]
    dsimp only
    rw [htk, hdp]
    rw [if_neg (by rw [hds]; exact Bool.false_ne_true)]
    split
    · rename_i r3x heq2
      exfalso
      cases w3 with
      | nil =>
        rw [List.nil_append] at heq2
        injection heq2 with hcc
        exact absurd hcc (by decide)
      | cons cw w4 =>
        rw [List.cons_append] at heq2
        injection heq2 with hcc
        have hcw : pyWs cw = true := List.all_eq_true.1 h3 cw (List.mem_cons_self cw w4)
        rw [hcc] at hcw
        exact absurd hcw (by decide)
    · rfl
  · rfl

/-- A line whose first non-whitespace character is not an opening bracket
is never matched, so a first bracketed number away from the start of the
line is never parsed. -/
theorem lineMatch_notBracket (w : List Char) (c : Char) (rest : List Char)
    (hw : w.all pyWs = true) (hc : pyWs c = false) (hb : c ≠ '[') :
    lineMatch ⟨w ++ c :: rest⟩ = none := by
  unfold lineMatch
  have hdat : (⟨w ++ c :: rest⟩ : String).data = w ++ c :: rest := rfl
  rw [hdat]
  have hdw : (w ++ c :: rest).dropWhile pyWs = c :: rest := by
    rw [List.dropWhile_append_of_pos (List.all_eq_true.1 hw)]
    rw [List.dropWhile_cons, if_neg (by rw [hc]; exact Bool.false_ne_true)]
  rw [hdw]
  split
  · rename_i r0x heq
    injection heq with hcc
    exact absurd hcc hb
  · rfl

/-- A line skipped by the regex contributes nothing to the recovered
text. -/
theorem collectSeg_skip (s e : Dec) (ln : String) (rest : List String)
    (h : lineMatch ln = none) : collectSeg s e (ln :: rest) = collectSeg s e rest := by
  simp [collectSeg, h]

/-- C9 (implicit): `extract_text_for_segment` parses an input line only
when the line begins (after optional whitespace) with a bracketed
timestamp containing a decimal point, of the form `[digits.digits]`
(inner whitespace allowed by the regex); every line whose bracketed
timestamp is an integer with no decimal point, and every line whose first
bracketed number is not at the start of the line (first non-whitespace
character not `[`), is silently skipped, and any skipped line never
contributes to recovered segment text. -/
theorem C9_line_regex_shape :
    (∀ (ln : String) (ts : Dec) (txt : String), lineMatch ln = some (ts, txt) →
      ∃ w1 w2 d1 d2 w3 rest,
        ln.data = w1 ++ '[' :: (w2 ++ (d1 ++ ('.' :: (d2 ++ (w3 ++ (']' :: rest)))))) ∧
        w1.all pyWs = true ∧ w2.all pyWs = true ∧ w3.all pyWs = true ∧
        d1 ≠ [] ∧ d2 ≠ [] ∧ d1.all Char.isDigit = true ∧ d2.all Char.isDigit = true ∧
        ts = ⟨(digitsToNat d1 * 10 ^ d2.length + digitsToNat d2 : Nat), d2.length⟩) ∧
    (∀ w1 w2 ds w3 rest : List Char,
      w1.all pyWs = true → w2.all pyWs = true → w3.all pyWs = true →
      ds ≠ [] → ds.all Char.isDigit = true →
      lineMatch ⟨w1 ++ '[' :: (w2 ++ (ds ++ (w3 ++ (']' :: rest))))⟩ = none) ∧
    (∀ (w : List Char) (c : Char) (rest : List Char),
      w.all pyWs = true → pyWs c = false → c ≠ '[' →
      lineMatch ⟨w ++ c :: rest⟩ = none) ∧
    (∀ (s e : Dec) (ln : String) (rest : List String), lineMatch ln = none →
      collectSeg s e (ln :: rest) = collectSeg s e rest) ∧
    lineMatch "[15.5] hello" = some (⟨155, 1⟩, "hello") :=
  ⟨lineMatch_shape,
   fun w1 w2 ds w3 rest h1 h2 h3 hne hd => lineMatch_intBracket w1 w2 ds w3 rest h1 h2 h3 hne hd,
   fun w c rest hw hc hb => lineMatch_notBracket w c rest hw hc hb,
   collectSeg_skip, rfl⟩

/-- Witness for C9: the integer-timestamp line `[15] hello` and the line
`abc [15.5] hello` (first bracket away from the start) are both skipped,
through the universal statements applied at these inputs. -/
theorem C9_witness :
    ((['1', '5'] : List Char).all Char.isDigit = true ∧
      lineMatch ⟨([] : List Char) ++ '[' :: (([] : List Char) ++
        ((['1', '5'] : List Char) ++ (([] : List Char) ++ (']' :: (' ' :: "hello".data)))))⟩
        = none) ∧
    (pyWs 'a' = false ∧ ('a' : Char) ≠ '[' ∧
      lineMatch ⟨([] : List Char) ++ 'a' :: "bc [15.5] hello".data⟩ = none) := by
  refine ⟨⟨by decide, ?_⟩, by decide, by decide, ?_⟩
  · exact C9_line_regex_shape.2.1 [] [] ['1', '5'] [] (' ' :: "hello".data)
      rfl rfl rfl (by decide) (by decide)
  · exact C9_line_regex_shape.2.2.1 [] 'a' "bc [15.5] hello".data rfl (by decide) (by decide)

/-- C10: transcript parsing and text recovery are deterministic and free
of side effects: the embedding is a pure function, so two invocations on
equal transcript text and equal boundaries return equal strings, and the
parsed line sequence is likewise reproducible. -/
theorem C10_deterministic (t₁ t₂ : String) (s₁ s₂ e₁ e₂ : Dec)
    (ht : t₁ = t₂) (hs : s₁ = s₂) (he : e₁ = e₂) :
    extract_text_for_segment t₁ s₁ e₁ = extract_text_for_segment t₂ s₂ e₂ ∧
    parseLines t₁ = parseLines t₂ := by
  subst ht
  subst hs
  subst he
  exact ⟨rfl, rfl⟩

/-- Witness for C10 at a concrete one-line transcript. -/
theorem C10_witness :
    ("[1.5] a" : String) = "[1.5] a" ∧
    (extract_text_for_segment "[1.5] a" ⟨0, 0⟩ ⟨9, 0⟩ =
        extract_text_for_segment "[1.5] a" ⟨0, 0⟩ ⟨9, 0⟩ ∧
      parseLines "[1.5] a" = parseLines "[1.5] a") :=
  ⟨rfl, C10_deterministic "[1.5] a" "[1.5] a" ⟨0, 0⟩ ⟨0, 0⟩ ⟨9, 0⟩ ⟨9, 0⟩ rfl rfl rfl⟩

/-- Counterexample to C7 as stated: a validated segment with non-empty
recovered text whose caption reply is a whitespace-only caption string
gives a non-null caption (`some ""` after trimming), yet the loop emits
no record for it — the third step requires a truthy caption, not merely a
non-null one. -/
theorem C7_counterexample :
    validate_highlight (JVal.obj [("start", JVal.num ⟨0, 0⟩), ("end", JVal.num ⟨30, 0⟩)]) = true ∧
    pyStrip (extract_text_for_segment "[5.0] hello there" ⟨0, 0⟩ ⟨30, 0⟩) ≠ "" ∧
    (generate_description_and_hashtags
      (fun _ => some "\x7b\"caption_with_hashtags\": \"   \"\x7d")
      (extract_text_for_segment "[5.0] hello there" ⟨0, 0⟩ ⟨30, 0⟩) 3).1 = some "" ∧
    processSegs (fun _ _ => some "\x7b\"caption_with_hashtags\": \"   \"\x7d")
      "[5.0] hello there"
      [JVal.obj [("start", JVal.num ⟨0, 0⟩), ("end", JVal.num ⟨30, 0⟩)]] 0 = some [] :=
  ⟨rfl, by decide, rfl, rfl⟩
